import Mathlib

/-!
Verification development for the `booklet` terminal e-book viewer.

The definitions below are a shallow embedding of the program's core
(`src/lib.rs`, the feature-complete draft, plus the inline handlers of
`src/main.rs`): documents are lists of lines, lines are lists of Unicode
scalar values (`List Char`), machine integers are `Nat` (Rust `usize`
arithmetic in this program is either guarded or saturating, which `Nat`
subtraction models exactly), and the file system is modelled by explicit
state fields (`sidecar` holds the last-written config record).
-/

namespace Booklet

/-- Sentinel style codepoints, from `Codes` in `lib.rs` / `main.rs`. -/
def Codes.RESET : Char := Char.ofNat 0xE000

/-- ITALIC-ON sentinel (`'\u{E003}'`). -/
def Codes.ITALIC : Char := Char.ofNat 0xE003

/-- ITALIC-OFF sentinel (`'\u{E023}'`). -/
def Codes.RESET_ITALIC : Char := Char.ofNat 0xE023

/-- Underline-on sentinel (`'\u{E004}'`). -/
def Codes.UNDERLINE : Char := Char.ofNat 0xE004

/-- Underline-off sentinel (`'\u{E024}'`). -/
def Codes.RESET_UNDERLINE : Char := Char.ofNat 0xE024

/-- Foreground-reset sentinel (`'\u{E100}'`). -/
def Codes.RESET_FOREGROUND : Char := Char.ofNat 0xE100

/-- Foreground-default sentinel (`'\u{E101}'`). -/
def Codes.FOREGROUND_DEFAULT : Char := Char.ofNat 0xE101

/-- Background-reset sentinel (`'\u{E200}'`). -/
def Codes.RESET_BACKGROUND : Char := Char.ofNat 0xE200

/-- Background-marker sentinel (`'\u{E201}'`). -/
def Codes.BACKGROUND_MARKER : Char := Char.ofNat 0xE201

/-- Background-selection sentinel (`'\u{E202}'`). -/
def Codes.BACKGROUND_SELECTION : Char := Char.ofNat 0xE202

/-- The ten sentinel codepoints of the markup language. -/
def sentinelChars : List Char :=
  [Codes.RESET, Codes.ITALIC, Codes.RESET_ITALIC, Codes.UNDERLINE, Codes.RESET_UNDERLINE,
   Codes.RESET_FOREGROUND, Codes.FOREGROUND_DEFAULT, Codes.RESET_BACKGROUND,
   Codes.BACKGROUND_MARKER, Codes.BACKGROUND_SELECTION]

/-- Tests whether a character is one of the sentinel codepoints. -/
def isSentinel (c : Char) : Bool := sentinelChars.contains c

/-- The ASCII escape character, first byte of every terminal control sequence. -/
def escChar : Char := Char.ofNat 27

/-- A span `(line_index, start_col, end_col)`, the Rust tuple `(usize, usize, usize)`. -/
abbrev Span := Nat × Nat × Nat

/-- The persisted config record (`Config` in `lib.rs`): bookmarks, markers and the
focus-mode flag (`Option<bool>`, absent in old sidecar files). -/
structure Config where
  bookmarks : List Nat
  markers : List Span
  focus_mode : Option Bool
deriving DecidableEq

/-- The `Default` derive of `Config`: two empty lists and `None`. -/
def Config.defaultCfg : Config := ⟨[], [], none⟩

/-- Models `Config::from_path` (`lib.rs` lines 56-71) after the file IO and TOML
parsing are discharged: the argument is `none` when the sidecar file does not
exist (yielding the default config) and `some c` when it parsed to record `c`;
the function then sorts the bookmark list in place (`config.bookmarks.sort()`),
modelled by the stable `List.insertionSort`. -/
def Config.from_path (file : Option Config) : Config :=
  match file with
  | none => Config.defaultCfg
  | some c => { c with bookmarks := c.bookmarks.insertionSort (· ≤ ·) }

/-- The `LICENSE_START` marker string of `lib.rs`, as a character list. -/
def LICENSE_START : List Char := "START OF THE PROJECT GUTENBERG".toList

/-- The `LICENSE_END` marker string of `lib.rs`, as a character list. -/
def LICENSE_END : List Char := "END OF THE PROJECT GUTENBERG".toList

/-- Rust `str::contains(needle)`: some suffix of the haystack starts with the needle. -/
def containsSeq (needle : List Char) : List Char → Bool
  | [] => needle.isEmpty
  | c :: cs => needle.isPrefixOf (c :: cs) || containsSeq needle cs

/-- Whether a line contains the start-of-license marker (`line.contains(LICENSE_START)`). -/
def startP (line : List Char) : Bool := containsSeq LICENSE_START line

/-- Whether a line contains the end-of-license marker (`line.contains(LICENSE_END)`). -/
def endP (line : List Char) : Bool := containsSeq LICENSE_END line

/-- The scanning loop of `Book::remove_license` (`lib.rs` lines 114-126): break at the
first line containing the end marker, push lines while `is_content` holds, and set
`is_content` after a line containing the start marker. -/
def removeLicenseGo (is_content : Bool) : List (List Char) → List (List Char)
  | [] => []
  | l :: ls =>
    if endP l then []
    else (if is_content then [l] else []) ++ removeLicenseGo (is_content || startP l) ls

/-- `Book::remove_license` (`lib.rs` lines 110-128), at the granularity of lines: the
content is kept unchanged unless both markers occur somewhere in it (the Rust code
tests `content.contains` on the whole string; since neither marker contains a
newline, that is equivalent to some line containing it). -/
def remove_license (content : List (List Char)) : List (List Char) :=
  if content.any startP && content.any endP then removeLicenseGo false content
  else content

/-- The scanning loop of `Book::highlight_italic` (`lib.rs` lines 130-158): `opn` is the
Rust `open` flag, `find_start` the resume-after-newline flag. On `'_'` the flag is
toggled and an ITALIC-ON/OFF sentinel emitted (the underscore is consumed); a newline
while open emits ITALIC-OFF and arms `find_start`; the first non-whitespace character
while armed is preceded by ITALIC-ON. Rust `char::is_whitespace` is modelled by
`Char.isWhitespace` (they agree on ASCII, which is all the theorems below exercise). -/
def highlightItalicGo (opn find_start : Bool) : List Char → List Char
  | [] => []
  | c :: cs =>
    if c = '_' then
      (if !opn then [Codes.ITALIC] else [Codes.RESET_ITALIC]) ++
        highlightItalicGo (!opn) false cs
    else
      let fs1 := if c = '\n' && opn then true else find_start
      let pre1 : List Char := if c = '\n' && opn then [Codes.RESET_ITALIC] else []
      let hit := !c.isWhitespace && fs1
      let pre2 : List Char := if hit then [Codes.ITALIC] else []
      pre1 ++ pre2 ++ c :: highlightItalicGo opn (if hit then false else fs1) cs

/-- `Book::highlight_italic` (`lib.rs` lines 130-158): the markup encoder, started with
both flags clear. -/
def highlight_italic (content : List Char) : List Char := highlightItalicGo false false content

/-- The sentinel-to-escape-sequence table of `render_page` (`main.rs` lines 361-376):
each sentinel maps to its terminal control sequence, every other character is copied
literally. -/
def decodeChar (c : Char) : List Char :=
  if c = Codes.RESET then escChar :: "[0m".toList
  else if c = Codes.ITALIC then escChar :: "[3m".toList
  else if c = Codes.RESET_ITALIC then escChar :: "[23m".toList
  else if c = Codes.UNDERLINE then escChar :: "[4m".toList
  else if c = Codes.RESET_UNDERLINE then escChar :: "[24m".toList
  else if c = Codes.BACKGROUND_MARKER then escChar :: "[48;2;90;90;0m".toList
  else if c = Codes.BACKGROUND_SELECTION then escChar :: "[48;2;100;100;100m".toList
  else if c = Codes.RESET_BACKGROUND then escChar :: "[49m".toList
  else [c]

/-- The decode pass of `render_page`: map every character through the table and
concatenate (`slices.join("")`). -/
def render_styles (line : List Char) : List Char := (line.map decodeChar).flatten

/-- The sentinel-insertion loop of `render_page` (`main.rs` lines 331-341 for the
selection, 348-358 for each marker): iterate over the current characters with their
indices, pushing the ON sentinel when the index equals `start` and the OFF sentinel
when it equals `end`, before pushing the character itself; `i` is the enumeration
counter. -/
def insertSpanAux (onC offC : Char) (s e : Nat) : Nat → List Char → List Char
  | _, [] => []
  | i, c :: cs =>
    (if i = s then [onC] else []) ++ (if i = e then [offC] else []) ++
      c :: insertSpanAux onC offC s e (i + 1) cs

/-- One compositor layer: insert an ON/OFF sentinel pair for the column range `[s, e)`
into a line, starting the enumeration at index `0`. -/
def render_span (onC offC : Char) (s e : Nat) (line : List Char) : List Char :=
  insertSpanAux onC offC s e 0 line

/-- Insertion of a single sentinel at character index `n` of a line, as the
enumeration loop performs it: the sentinel lands immediately before the character at
index `n` and is dropped when no such character exists. Used to state and prove the
characterization of the span-insertion loop. -/
def insertOff (offC : Char) : Nat → List Char → List Char
  | _, [] => []
  | 0, c :: cs => offC :: c :: cs
  | n + 1, c :: cs => c :: insertOff offC n cs

/-- The UTF-8 byte length of a Unicode scalar value, used to model Rust's byte-indexed
`str` operations over our `List Char` lines. -/
def utf8Len (c : Char) : Nat :=
  if c.toNat < 0x80 then 1 else if c.toNat < 0x800 then 2
  else if c.toNat < 0x10000 then 3 else 4

/-- Drops exactly `n` UTF-8 bytes from the front of a line; `none` when `n` is not a
character boundary (it falls inside a character's encoding or past the end). -/
def dropBytes : Nat → List Char → Option (List Char)
  | 0, l => some l
  | _ + 1, [] => none
  | n + 1, c :: cs => if utf8Len c ≤ n + 1 then dropBytes (n + 1 - utf8Len c) cs else none

/-- Takes exactly `n` UTF-8 bytes from the front of a line; `none` when `n` is not a
character boundary of it. -/
def takeBytes : Nat → List Char → Option (List Char)
  | 0, _ => some []
  | _ + 1, [] => none
  | n + 1, c :: cs =>
    if utf8Len c ≤ n + 1 then (takeBytes (n + 1 - utf8Len c) cs).map (c :: ·) else none

/-- Rust `str::get(start..end)` on a line: the byte range must satisfy `start <= end`,
and both endpoints must be character boundaries within the string, else `None`. -/
def strGet (line : List Char) (s e : Nat) : Option (List Char) :=
  if s ≤ e then (dropBytes s line).bind (fun rest => takeBytes (e - s) rest) else none

/-- Modelled from the spec: the Span contract of the data model, which measures spans
"in Unicode scalar positions of the post-markup-encoding text" — the substring of the
addressed line between character positions `start` and `end`, defined whenever
`start <= end <= length(line)`. Used as the reference point for `State::get_text`. -/
def get_text_spec (lines : List (List Char)) : Span → Option (List Char)
  | (pos, s, e) =>
    (lines.get? pos).bind fun line =>
      if s ≤ e ∧ e ≤ line.length then some ((line.drop s).take (e - s)) else none

/-- `State::goto_next_bookmark`'s scan (`lib.rs` lines 232-240): the first bookmark in
list order strictly greater than the current line. The spec calls this
`next_bookmark(after) -> Option<line>`. -/
def next_bookmark (bookmarks : List Nat) (after : Nat) : Option Nat :=
  bookmarks.find? (fun b => decide (after < b))

/-- `State::goto_prev_bookmark`'s scan (`lib.rs` lines 242-250): the first bookmark of
the reversed list strictly less than the current line. The spec calls this
`prev_bookmark(before) -> Option<line>`. -/
def prev_bookmark (bookmarks : List Nat) (before : Nat) : Option Nat :=
  bookmarks.reverse.find? (fun b => decide (b < before))

/-- The `'m'` marker-toggle handler of `main.rs` (lines 202-220): find the position of
the first marker tuple exactly equal to the selection and remove it, else push the
selection at the end. The recursion removes the first occurrence and otherwise
appends, exactly as `position` + `remove` / `push` do. -/
def toggle_marker : List Span → Span → List Span
  | [], s => [s]
  | m :: ms, s => if m = s then ms else m :: toggle_marker ms s

/-- The program state (`State` in `lib.rs`), restricted to the fields the claims are
about. `lines`/`line_count` are the `Book` fields; `sidecar` models the content of the
sidecar config file, which `Config::write` overwrites wholesale (file IO itself always
succeeds in this model). -/
structure State where
  config : Config
  lines : List (List Char)
  line_count : Nat
  screen_width : Nat
  screen_height : Nat
  line_number : Nat
  pad_left : Nat
  update_screen : Bool
  selection : Option Span
  sidecar : Option Config
  message : Option String
deriving DecidableEq

/-- `State::new` (`lib.rs` lines 177-191): zeroed screen fields, line 0, nothing dirty,
no selection; `line_count` is `Book::from_path`'s `lines.len()`. `sidecar` is the
current content of the sidecar file (a pure-model field). -/
def State.new (config : Config) (lines : List (List Char)) (sidecar : Option Config) : State :=
  { config := config, lines := lines, line_count := lines.length, screen_width := 0,
    screen_height := 0, line_number := 0, pad_left := 0, update_screen := false,
    selection := none, sidecar := sidecar, message := none }

/-- `State::move_up` (`lib.rs` lines 204-209). -/
def State.move_up (st : State) : State :=
  if 0 < st.line_number then
    { st with line_number := st.line_number - 1, update_screen := true }
  else st

/-- `State::move_down` (`lib.rs` lines 211-216); `line_count.saturating_sub(1)` is `Nat`
subtraction. -/
def State.move_down (st : State) : State :=
  if st.line_number < st.line_count - 1 then
    { st with line_number := st.line_number + 1, update_screen := true }
  else st

/-- `State::goto_top` (`lib.rs` lines 218-223). -/
def State.goto_top (st : State) : State :=
  if 0 < st.line_number then { st with line_number := 0, update_screen := true } else st

/-- `State::goto_bottom` (`lib.rs` lines 225-230). -/
def State.goto_bottom (st : State) : State :=
  if st.line_number ≠ st.line_count - 1 then
    { st with line_number := st.line_count - 1, update_screen := true }
  else st

/-- `State::goto_next_bookmark` (`lib.rs` lines 232-240). -/
def State.goto_next_bookmark (st : State) : State :=
  match next_bookmark st.config.bookmarks st.line_number with
  | some b => { st with line_number := b, update_screen := true }
  | none => st

/-- `State::goto_prev_bookmark` (`lib.rs` lines 242-250). -/
def State.goto_prev_bookmark (st : State) : State :=
  match prev_bookmark st.config.bookmarks st.line_number with
  | some b => { st with line_number := b, update_screen := true }
  | none => st

/-- `State::get_text` (`lib.rs` lines 252-256): fetch the line, then slice it with the
byte-indexed `line.get(start..end)`. -/
def State.get_text (st : State) : Span → Option (List Char)
  | (pos, s, e) => (st.lines.get? pos).bind fun line => strGet line s e

/-- `State::has_bookmark` (`lib.rs` lines 310-315). -/
def State.has_bookmark (st : State) (line_number : Nat) : Bool :=
  st.config.bookmarks.any (fun item => decide (item = line_number))

/-- `State::add_bookmark` (`lib.rs` lines 317-331): when absent, push, re-sort, write
the config to the sidecar file, show a message and set the dirty flag. -/
def State.add_bookmark (st : State) (line_number : Nat) : State :=
  if st.config.bookmarks.any (fun item => decide (item = line_number)) then st
  else
    let cfg := { st.config with
      bookmarks := (st.config.bookmarks ++ [line_number]).insertionSort (· ≤ ·) }
    { st with
      config := cfg, sidecar := some cfg,
      message := some "(i) Added bookmark", update_screen := true }

/-- `State::remove_bookmark` (`lib.rs` lines 333-346): remove at the position of the
first equal entry, write the config, show a message and set the dirty flag. -/
def State.remove_bookmark (st : State) (line_number : Nat) : State :=
  match st.config.bookmarks.findIdx? (fun item => decide (item = line_number)) with
  | some i =>
    let cfg := { st.config with bookmarks := st.config.bookmarks.eraseIdx i }
    { st with
      config := cfg, sidecar := some cfg,
      message := some "(i) Removed bookmark", update_screen := true }
  | none => st

/-- `State::toggle_bookmark` (`lib.rs` lines 301-308). -/
def State.toggle_bookmark (st : State) (line_number : Nat) : State :=
  if st.has_bookmark line_number then st.remove_bookmark line_number
  else st.add_bookmark line_number

/-- `State::toggle_focus_mode` (`lib.rs` lines 293-299): flip the flag (a missing value
counts as `false`), write the whole config to the sidecar file, show a message and set
the dirty flag. -/
def State.toggle_focus_mode (st : State) : State :=
  let cfg := { st.config with focus_mode := some (!(st.config.focus_mode.getD false)) }
  { st with
    config := cfg, sidecar := some cfg,
    message := some "(i) Toggled focus mode", update_screen := true }

/-- The navigation operations of claim C2, as a closed command alphabet. -/
inductive NavOp
  | up
  | down
  | top
  | bottom
  | nextBookmark
  | prevBookmark
deriving DecidableEq

/-- Dispatch of one navigation operation. -/
def applyNav : NavOp → State → State
  | .up, st => st.move_up
  | .down, st => st.move_down
  | .top, st => st.goto_top
  | .bottom, st => st.goto_bottom
  | .nextBookmark, st => st.goto_next_bookmark
  | .prevBookmark, st => st.goto_prev_bookmark

/-- A sequence of navigation operations, applied left to right. -/
def applyNavs (ops : List NavOp) (st : State) : State :=
  ops.foldl (fun s op => applyNav op s) st

/-- The bookmark mutations of claim C1, as a closed command alphabet. -/
inductive BkOp
  | toggle (line_number : Nat)
  | add (line_number : Nat)
  | remove (line_number : Nat)

/-- Dispatch of one bookmark mutation. -/
def applyBk : BkOp → State → State
  | .toggle l, st => st.toggle_bookmark l
  | .add l, st => st.add_bookmark l
  | .remove l, st => st.remove_bookmark l

/-- A sequence of bookmark mutations, applied left to right. -/
def applyBks (ops : List BkOp) (st : State) : State :=
  ops.foldl (fun s op => applyBk op s) st

/-- The leftward scan of the word/number span detector (`main.rs` lines 244-252),
walking index `i` downward: the first index whose character fails the predicate stops
the scan at `i + 1`; if the scan reaches index 0 without failing, the start is 0. A
missing character (out-of-range `get`) skips the test, leaving the running `start = 0`
assignment in force. -/
def findStartGo (pred : Char → Bool) (chars : List Char) : Nat → Nat
  | 0 =>
    match chars.get? 0 with
    | some c => if !pred c then 1 else 0
    | none => 0
  | i + 1 =>
    match chars.get? (i + 1) with
    | some c => if !pred c then i + 2 else findStartGo pred chars i
    | none => findStartGo pred chars i

/-- The start column of the clicked run (`let mut start = col; for i in (0..col).rev()`):
for `col = 0` the loop body never runs and `start` keeps its initial value. -/
def find_start_col (pred : Char → Bool) (chars : List Char) (col : Nat) : Nat :=
  match col with
  | 0 => 0
  | col' + 1 => findStartGo pred chars col'

/-- The rightward scan of the detector (`main.rs` lines 253-262), walking `i` upward
from `col` with fuel `chars.length - col`: the first failing index stops the scan at
`i`; if the scan exhausts the line, the end is `chars.length`. -/
def findEndGo (pred : Char → Bool) (chars : List Char) : Nat → Nat → Nat
  | 0, _ => chars.length
  | fuel + 1, i =>
    match chars.get? i with
    | some c => if !pred c then i else findEndGo pred chars fuel (i + 1)
    | none => findEndGo pred chars fuel (i + 1)

/-- The end column of the clicked run (`let mut end = col; for i in col..chars.len()`):
for `col >= chars.len()` the loop body never runs and `end` keeps its initial value. -/
def find_end_col (pred : Char → Bool) (chars : List Char) (col : Nat) : Nat :=
  if col < chars.length then findEndGo pred chars (chars.length - col) col else col

/-- The word/number span detection of the mouse-up handler (`main.rs` lines 240-294),
after the click has been resolved to document line `pos` and column `col` of the raw
line text: an alphabetic character yields the maximal alphabetic run around the
column, a numeric one the maximal numeric run, anything else selects nothing. Rust's
`char::is_alphabetic` / `char::is_numeric` are modelled by `Char.isAlpha` /
`Char.isDigit`, which agree on the ASCII text the theorems below exercise. -/
def word_span (chars : List Char) (pos col : Nat) : Option Span :=
  match chars.get? col with
  | none => none
  | some c =>
    if c.isAlpha then
      some (pos, find_start_col Char.isAlpha chars col, find_end_col Char.isAlpha chars col)
    else if c.isDigit then
      some (pos, find_start_col Char.isDigit chars col, find_end_col Char.isDigit chars col)
    else none

/-- The demonstration line of the word-detection claim. -/
def sampleLine : List Char := "see page 42 now".toList

/-- Demonstration content for license stripping: preamble, a start-marker line, two
body lines, an end-marker line, and a trailer. -/
def licenseDemo : List (List Char) :=
  ["aa", "x START OF THE PROJECT GUTENBERG", "body1", "body2",
   "y END OF THE PROJECT GUTENBERG", "zz"].map String.toList

/-- Demonstration content with a start marker but no end marker. -/
def licenseDemoNoEnd : List (List Char) :=
  ["aa", "x START OF THE PROJECT GUTENBERG", "body1"].map String.toList

/-! ## Theorems -/

/-- C6 (confirmed): encoding `"plain _word_ text"` consumes the underscores and yields
exactly one ITALIC-ON sentinel immediately before `word` and one ITALIC-OFF sentinel
immediately after it, with no other sentinel characters anywhere; decoding then maps
each sentinel to its terminal control sequence and copies every other character
literally. -/
theorem c6_markup_roundtrip :
    highlight_italic "plain _word_ text".toList =
      "plain ".toList ++ [Codes.ITALIC] ++ "word".toList ++
        [Codes.RESET_ITALIC] ++ " text".toList ∧
    (highlight_italic "plain _word_ text".toList).filter isSentinel =
      [Codes.ITALIC, Codes.RESET_ITALIC] ∧
    render_styles (highlight_italic "plain _word_ text".toList) =
      "plain ".toList ++ (escChar :: "[3m".toList) ++ "word".toList ++
        (escChar :: "[23m".toList) ++ " text".toList := by
  refine ⟨by decide, by decide, by decide⟩

/-- C7 (confirmed): on the raw line `"see page 42 now"`, a click resolved to either
column of `"42"` (columns 9 and 10) selects the span `(line, 9, 11)`, a click on any
column of `"page"` (columns 4 to 7) selects `(line, 4, 8)`, and a click on any of the
non-alphanumeric columns (the spaces at 3, 8 and 11, or past the end of the line)
selects nothing, so no state changes. -/
theorem c7_word_number_detection :
    ∀ pos : Nat,
      word_span sampleLine pos 9 = some (pos, 9, 11) ∧
      word_span sampleLine pos 10 = some (pos, 9, 11) ∧
      word_span sampleLine pos 4 = some (pos, 4, 8) ∧
      word_span sampleLine pos 5 = some (pos, 4, 8) ∧
      word_span sampleLine pos 6 = some (pos, 4, 8) ∧
      word_span sampleLine pos 7 = some (pos, 4, 8) ∧
      word_span sampleLine pos 3 = none ∧
      word_span sampleLine pos 8 = none ∧
      word_span sampleLine pos 11 = none ∧
      word_span sampleLine pos 15 = none := by
  intro pos
  exact ⟨rfl, rfl, rfl, rfl, rfl, rfl, rfl, rfl, rfl, rfl⟩

/-- C10 (confirmed): the persisted config record carries the third field `focus_mode`
next to `bookmarks` and `markers`; `State::toggle_focus_mode` flips the flag (a missing
value counts as off, so the first toggle yields on), writes the whole updated config to
the sidecar file, sets the dirty flag, and leaves the bookmark and marker fields
unchanged. -/
theorem c10_toggle_focus_mode (st : State) :
    (st.toggle_focus_mode).config.focus_mode =
        some (!(st.config.focus_mode.getD false)) ∧
    (st.config.focus_mode = none → (st.toggle_focus_mode).config.focus_mode = some true) ∧
    (st.toggle_focus_mode).sidecar = some (st.toggle_focus_mode).config ∧
    (st.toggle_focus_mode).update_screen = true ∧
    (st.toggle_focus_mode).config.bookmarks = st.config.bookmarks ∧
    (st.toggle_focus_mode).config.markers = st.config.markers := by
  refine ⟨rfl, ?_, rfl, rfl, rfl, rfl⟩
  intro h
  simp [State.toggle_focus_mode, h]

/-- Witness for C10: on a concrete state whose config has no stored focus-mode value,
the first toggle turns focus mode on. -/
theorem c10_witness :
    ((State.new ⟨[1], [(0, 0, 1)], none⟩ [] none).toggle_focus_mode).config.focus_mode =
      some true :=
  (c10_toggle_focus_mode (State.new ⟨[1], [(0, 0, 1)], none⟩ [] none)).2.1 rfl

/-- C5 (code_bug): `State::get_text` slices the stored line with the byte-indexed
`line.get(start..end)`, while every span in the program is built from character
positions of the encoded text; on the encoded line `['\u{E003}', 'a']` (ITALIC-ON
sentinel, three UTF-8 bytes, then `a`) the character span `(0, 1, 2)` addresses the
substring `"a"`, but the code returns `None` because byte offset 1 falls inside the
sentinel's encoding. -/
theorem c5_get_text_byte_indexed :
    State.get_text (State.new Config.defaultCfg [[Codes.ITALIC, 'a']] none) (0, 1, 2) =
      none ∧
    get_text_spec [[Codes.ITALIC, 'a']] (0, 1, 2) = some ['a'] := by
  exact ⟨by decide, by decide⟩

/-- Helper for C9: when the span is absent, the toggle appends it at the end. -/
theorem toggle_marker_of_not_mem (ms : List Span) (s : Span) (h : s ∉ ms) :
    toggle_marker ms s = ms ++ [s] := by
  induction ms with
  | nil => rfl
  | cons m tl ih =>
    have hm : m ≠ s := fun he => h (he ▸ List.mem_cons_self m tl)
    have htl : s ∉ tl := fun ht => h (List.mem_cons_of_mem m ht)
    simp [toggle_marker, hm, ih htl]

/-- Helper for C9: toggling a freshly appended span removes exactly it. -/
theorem toggle_marker_append_self (ms : List Span) (s : Span) (h : s ∉ ms) :
    toggle_marker (ms ++ [s]) s = ms := by
  induction ms with
  | nil => simp [toggle_marker]
  | cons m tl ih =>
    have hm : m ≠ s := fun he => h (he ▸ List.mem_cons_self m tl)
    have htl : s ∉ tl := fun ht => h (List.mem_cons_of_mem m ht)
    simp [toggle_marker, hm, ih htl]

/-- Helper for C9: toggling commutes with a non-matching head element. -/
theorem toggle_marker_cons_ne (m : Span) (tl : List Span) (s : Span) (hm : m ≠ s) :
    toggle_marker (m :: tl) s = m :: toggle_marker tl s := by
  simp [toggle_marker, hm]

/-- C9 (corrected): toggling a marker twice restores the marker sequence only up to
reordering — the second toggle re-appends the span at the end of the list, so the
multiset of markers is restored whenever the span occurs at most once in the sequence,
and the sequence itself is restored exactly when the span was absent. -/
theorem c9_toggle_marker_double (ms : List Span) (s : Span) (h : ms.count s ≤ 1) :
    List.Perm (toggle_marker (toggle_marker ms s) s) ms ∧
    (s ∉ ms → toggle_marker (toggle_marker ms s) s = ms) := by
  constructor
  · induction ms with
    | nil =>
      simp [toggle_marker]
    | cons m tl ih =>
      by_cases hm : m = s
      · subst hm
        have h0 : tl.count m = 0 := by
          have := List.count_cons_self m tl
          omega
        have hnm : m ∉ tl := List.count_eq_zero.mp h0
        have h1 : toggle_marker (m :: tl) m = tl := by simp [toggle_marker]
        rw [h1, toggle_marker_of_not_mem tl m hnm]
        exact List.perm_append_singleton m tl
      · have hcount : tl.count s ≤ 1 := by
          have hne : s ≠ m := fun he => hm he.symm
          rw [List.count_cons_of_ne hne] at h
          exact h
        rw [toggle_marker_cons_ne m tl s hm,
          toggle_marker_cons_ne m (toggle_marker tl s) s hm]
        exact (ih hcount).cons m
  · intro hs
    rw [toggle_marker_of_not_mem ms s hs, toggle_marker_append_self ms s hs]

/-- Counterexample for C9 as stated: toggling the marker `(3,0,4)` twice on the list
`[(3,0,4), (5,1,2)]` yields `[(5,1,2), (3,0,4)]` — the span is re-appended at the end,
so the sequence is not returned to its original state. -/
theorem c9_counterexample :
    toggle_marker (toggle_marker ([(3, 0, 4), (5, 1, 2)] : List Span) (3, 0, 4)) (3, 0, 4) ≠
      ([(3, 0, 4), (5, 1, 2)] : List Span) := by
  decide

/-- Witness for C9: on a list not containing the toggled span, the double toggle is the
identity. -/
theorem c9_witness :
    toggle_marker (toggle_marker ([(5, 1, 2)] : List Span) (3, 0, 4)) (3, 0, 4) =
      ([(5, 1, 2)] : List Span) :=
  (c9_toggle_marker_double [(5, 1, 2)] (3, 0, 4) (by decide)).2 (by decide)

/-- Helper for C1: sortedness and freedom from duplicates of the bookmark list survive
`State::add_bookmark`. -/
theorem add_bookmark_inv (st : State) (l : Nat)
    (h : st.config.bookmarks.Sorted (· ≤ ·) ∧ st.config.bookmarks.Nodup) :
    (st.add_bookmark l).config.bookmarks.Sorted (· ≤ ·) ∧
      (st.add_bookmark l).config.bookmarks.Nodup := by
  unfold State.add_bookmark
  split
  · exact h
  · rename_i hany
    refine ⟨List.sorted_insertionSort _ _, ?_⟩
    refine ((List.perm_insertionSort _ _).nodup_iff).mpr ?_
    have hl : l ∉ st.config.bookmarks := by
      intro hmem
      exact hany (List.any_eq_true.mpr ⟨l, hmem, by simp⟩)
    simp [List.nodup_append, h.2, hl]

/-- Helper for C1: the invariant survives `State::remove_bookmark`, since erasing an
index yields a sublist. -/
theorem remove_bookmark_inv (st : State) (l : Nat)
    (h : st.config.bookmarks.Sorted (· ≤ ·) ∧ st.config.bookmarks.Nodup) :
    (st.remove_bookmark l).config.bookmarks.Sorted (· ≤ ·) ∧
      (st.remove_bookmark l).config.bookmarks.Nodup := by
  unfold State.remove_bookmark
  split
  · rename_i i hi
    have hsub : List.Sublist (st.config.bookmarks.eraseIdx i) st.config.bookmarks :=
      List.eraseIdx_sublist _ i
    exact ⟨h.1.sublist hsub, h.2.sublist hsub⟩
  · exact h

/-- Helper for C1: the invariant survives `State::toggle_bookmark`. -/
theorem toggle_bookmark_inv (st : State) (l : Nat)
    (h : st.config.bookmarks.Sorted (· ≤ ·) ∧ st.config.bookmarks.Nodup) :
    (st.toggle_bookmark l).config.bookmarks.Sorted (· ≤ ·) ∧
      (st.toggle_bookmark l).config.bookmarks.Nodup := by
  unfold State.toggle_bookmark
  split
  · exact remove_bookmark_inv st l h
  · exact add_bookmark_inv st l h

/-- Helper for C1: the invariant survives any single bookmark mutation. -/
theorem applyBk_inv (op : BkOp) (st : State)
    (h : st.config.bookmarks.Sorted (· ≤ ·) ∧ st.config.bookmarks.Nodup) :
    (applyBk op st).config.bookmarks.Sorted (· ≤ ·) ∧
      (applyBk op st).config.bookmarks.Nodup := by
  cases op with
  | toggle l => exact toggle_bookmark_inv st l h
  | add l => exact add_bookmark_inv st l h
  | remove l => exact remove_bookmark_inv st l h

/-- Helper for C1: the invariant survives any sequence of bookmark mutations. -/
theorem applyBks_inv (ops : List BkOp) (st : State)
    (h : st.config.bookmarks.Sorted (· ≤ ·) ∧ st.config.bookmarks.Nodup) :
    (applyBks ops st).config.bookmarks.Sorted (· ≤ ·) ∧
      (applyBks ops st).config.bookmarks.Nodup := by
  induction ops generalizing st with
  | nil => exact h
  | cons op ops ih => exact ih (applyBk op st) (applyBk_inv op st h)

/-- C1 (corrected): after loading, the bookmark list is sorted ascending, and —
provided the list stored in the sidecar file is itself free of duplicates, which
`Config::from_path` does not enforce — it is also duplicate-free; every sequence of
toggle operations (`toggle_bookmark` / `add_bookmark` / `remove_bookmark`) then
preserves both sortedness and freedom from duplicates. -/
theorem c1_bookmark_invariant (file : Option Config) (lines : List (List Char))
    (sc : Option Config) (ops : List BkOp)
    (hnd : ∀ c, file = some c → c.bookmarks.Nodup) :
    (Config.from_path file).bookmarks.Sorted (· ≤ ·) ∧
    (Config.from_path file).bookmarks.Nodup ∧
    (applyBks ops (State.new (Config.from_path file) lines sc)).config.bookmarks.Sorted
      (· ≤ ·) ∧
    (applyBks ops (State.new (Config.from_path file) lines sc)).config.bookmarks.Nodup := by
  have hinv : (Config.from_path file).bookmarks.Sorted (· ≤ ·) ∧
      (Config.from_path file).bookmarks.Nodup := by
    cases file with
    | none => exact ⟨List.sorted_nil, List.nodup_nil⟩
    | some c =>
      refine ⟨List.sorted_insertionSort _ _, ?_⟩
      exact ((List.perm_insertionSort _ _).nodup_iff).mpr (hnd c rfl)
  have hseq := applyBks_inv ops (State.new (Config.from_path file) lines sc) hinv
  exact ⟨hinv.1, hinv.2, hseq.1, hseq.2⟩

/-- Counterexample for C1 as stated: a sidecar file whose bookmark list is
`[3, 3]` loads through `Config::from_path` into a bookmark list that still contains a
duplicate — the load path sorts but never deduplicates. -/
theorem c1_counterexample :
    ¬ (Config.from_path (some ⟨[3, 3], [], none⟩)).bookmarks.Nodup := by
  decide

/-- Witness for C1: a concrete unsorted duplicate-free file `[5, 2]` and the toggle
sequence `[toggle 7]` keep the invariant. -/
theorem c1_witness :
    (Config.from_path (some ⟨[5, 2], [], none⟩)).bookmarks.Sorted (· ≤ ·) ∧
    (Config.from_path (some ⟨[5, 2], [], none⟩)).bookmarks.Nodup ∧
    (applyBks [BkOp.toggle 7]
        (State.new (Config.from_path (some ⟨[5, 2], [], none⟩)) [] none)).config.bookmarks.Sorted
      (· ≤ ·) ∧
    (applyBks [BkOp.toggle 7]
        (State.new (Config.from_path (some ⟨[5, 2], [], none⟩)) [] none)).config.bookmarks.Nodup :=
  c1_bookmark_invariant (some ⟨[5, 2], [], none⟩) [] none [BkOp.toggle 7]
    (fun c hc => by cases hc; decide)

/-- Helper for C2: navigation operations never touch the config. -/
theorem applyNav_config (op : NavOp) (st : State) : (applyNav op st).config = st.config := by
  cases op <;>
    simp only [applyNav, State.move_up, State.move_down, State.goto_top,
      State.goto_bottom, State.goto_next_bookmark, State.goto_prev_bookmark] <;>
    (repeat' split) <;> rfl

/-- Helper for C2: navigation operations never touch the line count. -/
theorem applyNav_line_count (op : NavOp) (st : State) :
    (applyNav op st).line_count = st.line_count := by
  cases op <;>
    simp only [applyNav, State.move_up, State.move_down, State.goto_top,
      State.goto_bottom, State.goto_next_bookmark, State.goto_prev_bookmark] <;>
    (repeat' split) <;> rfl

/-- Helper for C2: when every bookmark lies within the document, one navigation
operation keeps the current line within `[0, line_count - 1]`. -/
theorem applyNav_line_le (op : NavOp) (st : State)
    (hb : ∀ b ∈ st.config.bookmarks, b ≤ st.line_count - 1)
    (hl : st.line_number ≤ st.line_count - 1) :
    (applyNav op st).line_number ≤ st.line_count - 1 := by
  cases op with
  | up =>
    simp only [applyNav, State.move_up]
    split
    · simp only []
      omega
    · exact hl
  | down =>
    simp only [applyNav, State.move_down]
    split
    · rename_i hlt
      simp only []
      omega
    · exact hl
  | top =>
    simp only [applyNav, State.goto_top]
    split
    · simp only []
      omega
    · exact hl
  | bottom =>
    simp only [applyNav, State.goto_bottom]
    split
    · exact Nat.le_refl _
    · exact hl
  | nextBookmark =>
    simp only [applyNav, State.goto_next_bookmark]
    split
    · rename_i b hfind
      exact hb b (List.mem_of_find?_eq_some hfind)
    · exact hl
  | prevBookmark =>
    simp only [applyNav, State.goto_prev_bookmark]
    split
    · rename_i b hfind
      have hmem : b ∈ st.config.bookmarks :=
        List.mem_reverse.mp (List.mem_of_find?_eq_some hfind)
      exact hb b hmem
    · exact hl

/-- Helper for C2: the bound on the current line survives any sequence of navigation
operations. -/
theorem applyNavs_line_le (ops : List NavOp) (st : State)
    (hb : ∀ b ∈ st.config.bookmarks, b ≤ st.line_count - 1)
    (hl : st.line_number ≤ st.line_count - 1) :
    (applyNavs ops st).line_number ≤ st.line_count - 1 := by
  induction ops generalizing st with
  | nil => exact hl
  | cons op ops ih =>
    have hb' : ∀ b ∈ (applyNav op st).config.bookmarks,
        b ≤ (applyNav op st).line_count - 1 := by
      rw [applyNav_config, applyNav_line_count]
      exact hb
    have hl' : (applyNav op st).line_number ≤ (applyNav op st).line_count - 1 := by
      rw [applyNav_line_count]
      exact applyNav_line_le op st hb hl
    have := ih (applyNav op st) hb' hl'
    rwa [applyNav_line_count] at this

/-- C2 (corrected): provided every loaded bookmark lies within the document (which the
code itself does not enforce — see the counterexample), the current line stays within
`[0, max(0, line_count - 1)]` under every sequence of navigation operations; moreover
`move_up` at line 0 and `move_down` at line `line_count - 1` are exact no-ops: they
change no state and do not set the dirty flag. -/
theorem c2_navigation_clamped (ops : List NavOp) (st : State)
    (hb : ∀ b ∈ st.config.bookmarks, b ≤ st.line_count - 1)
    (hl : st.line_number ≤ st.line_count - 1) :
    (applyNavs ops st).line_number ≤ st.line_count - 1 ∧
    (st.line_number = 0 → st.move_up = st) ∧
    (st.line_number = st.line_count - 1 → st.move_down = st) := by
  refine ⟨applyNavs_line_le ops st hb hl, ?_, ?_⟩
  · intro h0
    simp [State.move_up, h0]
  · intro hend
    simp [State.move_down, hend]

/-- Counterexample for C2 as stated: a one-line document whose sidecar config holds the
stale bookmark 5 — `goto_next_bookmark` jumps straight to line 5, outside
`[0, line_count - 1] = [0, 0]`. -/
theorem c2_counterexample :
    ¬ ((applyNavs [NavOp.nextBookmark] (State.new ⟨[5], [], none⟩ [['a']] none)).line_number ≤
        (State.new ⟨[5], [], none⟩ [['a']] none).line_count - 1) := by
  decide

/-- Witness for C2: a four-line document with bookmark 2; jumping to the bookmark and
then moving down stays within bounds. -/
theorem c2_witness :
    (applyNavs [NavOp.nextBookmark, NavOp.down]
        (State.new ⟨[2], [], none⟩ [[], [], [], []] none)).line_number ≤
      (State.new ⟨[2], [], none⟩ [[], [], [], []] none).line_count - 1 ∧
    ((State.new ⟨[2], [], none⟩ [[], [], [], []] none).line_number = 0 →
      (State.new ⟨[2], [], none⟩ [[], [], [], []] none).move_up =
        State.new ⟨[2], [], none⟩ [[], [], [], []] none) ∧
    ((State.new ⟨[2], [], none⟩ [[], [], [], []] none).line_number =
        (State.new ⟨[2], [], none⟩ [[], [], [], []] none).line_count - 1 →
      (State.new ⟨[2], [], none⟩ [[], [], [], []] none).move_down =
        State.new ⟨[2], [], none⟩ [[], [], [], []] none) :=
  c2_navigation_clamped [NavOp.nextBookmark, NavOp.down]
    (State.new ⟨[2], [], none⟩ [[], [], [], []] none) (by decide) (by decide)

/-- Helper for C3: once `is_content` holds, the scan keeps every line up to (and
excluding) the first end-marker line. -/
theorem removeLicenseGo_true (ls : List (List Char)) :
    removeLicenseGo true ls = ls.take (ls.findIdx endP) := by
  induction ls with
  | nil => rfl
  | cons l tl ih =>
    cases he : endP l with
    | true => simp [removeLicenseGo, he, List.findIdx_cons]
    | false => simp [removeLicenseGo, he, List.findIdx_cons, ih]

/-- Helper for C3: from the initial state, the scan keeps exactly the lines strictly
between the first start-marker line and the first end-marker line. -/
theorem removeLicenseGo_false (ls : List (List Char)) :
    removeLicenseGo false ls = (ls.take (ls.findIdx endP)).drop (ls.findIdx startP + 1) := by
  induction ls with
  | nil => rfl
  | cons l tl ih =>
    cases he : endP l with
    | true => simp [removeLicenseGo, he, List.findIdx_cons]
    | false =>
      cases hs : startP l with
      | true => simp [removeLicenseGo, he, hs, List.findIdx_cons, removeLicenseGo_true]
      | false => simp [removeLicenseGo, he, hs, List.findIdx_cons, ih]

/-- C3 (confirmed): when the content contains both markers, `Book::remove_license`
retains exactly the lines strictly between the first start-marker line and the first
end-marker line — both marker lines and everything outside them are dropped; when a
start marker is present but no end marker, the content is kept unchanged in full. -/
theorem c3_remove_license (content : List (List Char)) :
    (((∃ l ∈ content, startP l) ∧ (∃ l ∈ content, endP l)) →
      remove_license content =
        (content.take (content.findIdx endP)).drop (content.findIdx startP + 1)) ∧
    (((∃ l ∈ content, startP l) ∧ ¬ (∃ l ∈ content, endP l)) →
      remove_license content = content) := by
  constructor
  · rintro ⟨h1, h2⟩
    have ha : content.any startP = true := List.any_eq_true.mpr h1
    have he : content.any endP = true := List.any_eq_true.mpr h2
    rw [remove_license, if_pos (by rw [ha, he]; rfl)]
    exact removeLicenseGo_false content
  · rintro ⟨h1, h2⟩
    have he : content.any endP = false := by
      rcases hcase : content.any endP with _ | _
      · rfl
      · exact absurd (List.any_eq_true.mp hcase) h2
    rw [remove_license, if_neg (by rw [he]; simp)]

/-- Witness for C3: on the demonstration contents, stripping keeps exactly the two body
lines between the markers, and leaves end-marker-less content untouched. -/
theorem c3_witness :
    remove_license licenseDemo =
      (licenseDemo.take (licenseDemo.findIdx endP)).drop (licenseDemo.findIdx startP + 1) ∧
    remove_license licenseDemoNoEnd = licenseDemoNoEnd :=
  ⟨(c3_remove_license licenseDemo).1 (by decide),
   (c3_remove_license licenseDemoNoEnd).2 (by decide)⟩

/-- Helper for C4: once the enumeration counter has passed both span indices, the loop
copies the rest of the line unchanged. -/
theorem insertSpanAux_past (onC offC : Char) (s e i : Nat) (l : List Char)
    (hs : s < i) (he : e < i) : insertSpanAux onC offC s e i l = l := by
  induction l generalizing i with
  | nil => rfl
  | cons c cs ih =>
    have h1 : ¬ i = s := by omega
    have h2 : ¬ i = e := by omega
    simp [insertSpanAux, h1, h2, ih (i + 1) (by omega) (by omega)]

/-- Helper for C4: between the two span indices, the loop degenerates to inserting the
single OFF sentinel at the remaining offset. -/
theorem insertSpanAux_off (onC offC : Char) (s e i : Nat) (l : List Char)
    (hs : s < i) (he : i ≤ e) :
    insertSpanAux onC offC s e i l = insertOff offC (e - i) l := by
  induction l generalizing i with
  | nil => rcases e - i with _ | n <;> rfl
  | cons c cs ih =>
    have h1 : ¬ i = s := by omega
    by_cases h2 : i = e
    · subst h2
      simp [insertSpanAux, h1, Nat.sub_self, insertOff,
        insertSpanAux_past onC offC s i (i + 1) cs (by omega) (by omega)]
    · have hlt : i < e := by omega
      have hsub : e - i = (e - (i + 1)) + 1 := by omega
      simp only [insertSpanAux, if_neg h1, if_neg h2, List.nil_append]
      rw [ih (i + 1) (by omega) (by omega), hsub]
      rfl

/-- Helper for C4: single-sentinel insertion splits the line at the offset; an offset
past the last character inserts nothing. -/
theorem insertOff_eq (offC : Char) (n : Nat) (l : List Char) :
    insertOff offC n l = l.take n ++ (if n < l.length then [offC] else []) ++ l.drop n := by
  induction l generalizing n with
  | nil => simp [insertOff]
  | cons c cs ih =>
    cases n with
    | zero => simp [insertOff]
    | succ n =>
      simp only [insertOff, ih, List.take_succ_cons, List.drop_succ_cons,
        List.length_cons, Nat.succ_lt_succ_iff, List.cons_append]

/-- Helper for C4: the enumeration loop only depends on the offsets of the span indices
from the counter. -/
theorem insertSpanAux_shift (onC offC : Char) (s e i : Nat) (l : List Char) :
    insertSpanAux onC offC (s + 1) (e + 1) (i + 1) l = insertSpanAux onC offC s e i l := by
  induction l generalizing i with
  | nil => rfl
  | cons c cs ih =>
    simp [insertSpanAux, Nat.succ_lt_succ_iff, ih (i + 1)]

/-- C4 (corrected): for a span with `start <= end`, the compositor layer inserts the ON
sentinel immediately before the character at index `start` and the OFF sentinel
immediately before the character at index `end`, leaving the characters themselves
unchanged; an index with no character under it (`start >= length`, respectively
`end >= length`) inserts nothing. In particular a fully out-of-range span is a no-op
and the operation is total — but the two sentinels are NOT always inserted as a pair:
a span ending exactly at the line length keeps its ON sentinel while the OFF sentinel
is dropped. -/
theorem c4_render_span_characterization (onC offC : Char) (s e : Nat) (l : List Char)
    (hse : s ≤ e) :
    render_span onC offC s e l =
      l.take s ++ (if s < l.length then [onC] else []) ++ (l.drop s).take (e - s) ++
        (if e < l.length then [offC] else []) ++ l.drop e := by
  induction l generalizing s e with
  | nil => simp [render_span, insertSpanAux]
  | cons c cs ih =>
    match s, e with
    | 0, 0 =>
      simp [render_span, insertSpanAux,
        insertSpanAux_past onC offC 0 0 1 cs (by omega) (by omega)]
    | 0, e' + 1 =>
      have h2 : ¬ (0 = e' + 1) := by omega
      simp only [render_span, insertSpanAux, if_pos rfl, if_neg h2, List.nil_append,
        List.singleton_append]
      rw [insertSpanAux_off onC offC 0 (e' + 1) 1 cs (by omega) (by omega)]
      simp only [Nat.add_sub_cancel, insertOff_eq, List.take_succ_cons,
        List.drop_succ_cons, List.length_cons, Nat.succ_lt_succ_iff, List.take_nil,
        List.drop_nil, Nat.zero_lt_succ, if_pos, List.take_zero, List.drop_zero,
        Nat.zero_le, Nat.sub_zero, List.cons_append, List.nil_append]
    | s' + 1, e' + 1 =>
      have h1 : ¬ (0 = s' + 1) := by omega
      have h2 : ¬ (0 = e' + 1) := by omega
      simp only [render_span, insertSpanAux, if_neg h1, if_neg h2, List.nil_append]
      rw [insertSpanAux_shift onC offC s' e' 0 cs]
      rw [show insertSpanAux onC offC s' e' 0 cs = render_span onC offC s' e' cs from rfl]
      rw [ih s' e' (by omega)]
      simp only [List.take_succ_cons, List.drop_succ_cons, List.length_cons,
        Nat.succ_lt_succ_iff, Nat.succ_sub_succ, List.cons_append]

/-- Counterexample for C4 as stated: the in-range span `(0, 3)` on the three-character
line `"abc"` (spec invariant `start <= end <= length` holds) gets its ON sentinel but
no OFF sentinel — the enumeration only reaches indices 0 to 2, so the pair is broken. -/
theorem c4_counterexample :
    render_span Codes.BACKGROUND_SELECTION Codes.RESET_BACKGROUND 0 3 "abc".toList =
      Codes.BACKGROUND_SELECTION :: "abc".toList ∧
    Codes.RESET_BACKGROUND ∉
      render_span Codes.BACKGROUND_SELECTION Codes.RESET_BACKGROUND 0 3 "abc".toList := by
  exact ⟨by decide, by decide⟩

/-- Witness for C4: the span `(1, 3)` on `"abcd"` inserts the ON sentinel before index
1 and the OFF sentinel before index 3. -/
theorem c4_witness :
    render_span Codes.BACKGROUND_SELECTION Codes.RESET_BACKGROUND 1 3 "abcd".toList =
      "abcd".toList.take 1 ++
        (if 1 < "abcd".toList.length then [Codes.BACKGROUND_SELECTION] else []) ++
        ("abcd".toList.drop 1).take (3 - 1) ++
        (if 3 < "abcd".toList.length then [Codes.RESET_BACKGROUND] else []) ++
        "abcd".toList.drop 3 :=
  c4_render_span_characterization Codes.BACKGROUND_SELECTION Codes.RESET_BACKGROUND 1 3
    "abcd".toList (by decide)

/-- Helper for C8: on a sorted list, the bookmark found by the forward scan is minimal
among the bookmarks strictly greater than the current line. -/
theorem next_bookmark_min (bs : List Nat) (l b : Nat) (hs : bs.Sorted (· ≤ ·))
    (h : next_bookmark bs l = some b) : ∀ x ∈ bs, l < x → b ≤ x := by
  induction bs with
  | nil => simp [next_bookmark] at h
  | cons a tl ih =>
    rw [List.sorted_cons] at hs
    by_cases ha : l < a
    · rw [next_bookmark, List.find?_cons_of_pos _ (by simpa using ha)] at h
      cases h
      intro x hx hlx
      rcases List.mem_cons.mp hx with rfl | hx'
      · exact Nat.le_refl _
      · exact hs.1 x hx'
    · rw [next_bookmark, List.find?_cons_of_neg _ (by simpa using ha)] at h
      intro x hx hlx
      rcases List.mem_cons.mp hx with rfl | hx'
      · exact absurd hlx ha
      · exact ih hs.2 h x hx' hlx

/-- Helper for C8: on a sorted list, every bookmark strictly below the one found by the
forward scan is at most the current line. -/
theorem next_bookmark_below (bs : List Nat) (l b : Nat) (hs : bs.Sorted (· ≤ ·))
    (h : next_bookmark bs l = some b) : ∀ x ∈ bs, x < b → x ≤ l := by
  induction bs with
  | nil => simp [next_bookmark] at h
  | cons a tl ih =>
    rw [List.sorted_cons] at hs
    by_cases ha : l < a
    · rw [next_bookmark, List.find?_cons_of_pos _ (by simpa using ha)] at h
      cases h
      intro x hx hxb
      rcases List.mem_cons.mp hx with rfl | hx'
      · omega
      · have := hs.1 x hx'
        omega
    · rw [next_bookmark, List.find?_cons_of_neg _ (by simpa using ha)] at h
      intro x hx hxb
      rcases List.mem_cons.mp hx with rfl | hx'
      · omega
      · exact ih hs.2 h x hx' hxb

/-- Helper for C8: on a descending list, the first element below the bound is maximal
among the elements below the bound. -/
theorem find_desc_max (rs : List Nat) (b p : Nat) (hs : rs.Sorted (· ≥ ·))
    (h : rs.find? (fun x => decide (x < b)) = some p) : ∀ x ∈ rs, x < b → x ≤ p := by
  induction rs with
  | nil => simp at h
  | cons a tl ih =>
    rw [List.sorted_cons] at hs
    by_cases ha : a < b
    · rw [List.find?_cons_of_pos _ (by simpa using ha)] at h
      cases h
      intro x hx hxb
      rcases List.mem_cons.mp hx with rfl | hx'
      · exact Nat.le_refl _
      · exact hs.1 x hx'
    · rw [List.find?_cons_of_neg _ (by simpa using ha)] at h
      intro x hx hxb
      rcases List.mem_cons.mp hx with rfl | hx'
      · omega
      · exact ih hs.2 h x hx' hxb

/-- C8 (confirmed): for a sorted bookmark list, `next_bookmark(l)` finds exactly the
first bookmark strictly greater than `l` (and when none exists every bookmark is at
most `l`, so the current line is unchanged); `prev_bookmark(b)` finds exactly the last
bookmark strictly less than `b`; and when `next_bookmark(l) = some b` and some bookmark
strictly less than `b` exists, `prev_bookmark(b)` succeeds with a value at most `l` —
the round-trip boundary law. -/
theorem c8_bookmark_navigation (bs : List Nat) (l b : Nat) (hs : bs.Sorted (· ≤ ·)) :
    (next_bookmark bs l = some b → b ∈ bs ∧ l < b ∧ ∀ x ∈ bs, l < x → b ≤ x) ∧
    (next_bookmark bs l = none → ∀ x ∈ bs, x ≤ l) ∧
    (∀ p, prev_bookmark bs b = some p → p ∈ bs ∧ p < b ∧ ∀ x ∈ bs, x < b → x ≤ p) ∧
    (next_bookmark bs l = some b → (∃ x ∈ bs, x < b) →
      ∃ p, prev_bookmark bs b = some p ∧ p ≤ l) := by
  have hrev : bs.reverse.Sorted (· ≥ ·) := List.pairwise_reverse.mpr hs
  refine ⟨?_, ?_, ?_, ?_⟩
  · intro h
    refine ⟨List.mem_of_find?_eq_some h, ?_, next_bookmark_min bs l b hs h⟩
    simpa using List.find?_some h
  · intro h x hx
    have h2 : ¬ l < x := by simpa using List.find?_eq_none.mp h x hx
    omega
  · intro p hp
    refine ⟨List.mem_reverse.mp (List.mem_of_find?_eq_some hp), ?_, ?_⟩
    · simpa using List.find?_some hp
    · exact fun x hx hxb =>
        find_desc_max bs.reverse b p hrev hp x (List.mem_reverse.mpr hx) hxb
  · intro h hex
    have hsome : (bs.reverse.find? (fun x => decide (x < b))).isSome := by
      rw [List.find?_isSome]
      obtain ⟨x, hx, hxb⟩ := hex
      exact ⟨x, List.mem_reverse.mpr hx, by simpa using hxb⟩
    obtain ⟨p, hp⟩ := Option.isSome_iff_exists.mp hsome
    refine ⟨p, hp, ?_⟩
    have hmem : p ∈ bs := List.mem_reverse.mp (List.mem_of_find?_eq_some hp)
    have hlt : p < b := by simpa using List.find?_some hp
    exact next_bookmark_below bs l b hs h p hmem hlt

/-- Witness for C8: on the sorted bookmarks `[1, 4, 7]` with current line 2,
`next_bookmark` reaches 4 and `prev_bookmark 4` comes back to `1 <= 2`. -/
theorem c8_witness :
    ∃ p, prev_bookmark [1, 4, 7] 4 = some p ∧ p ≤ 2 :=
  (c8_bookmark_navigation [1, 4, 7] 2 4 (by decide)).2.2.2 (by decide)
    ⟨1, by decide, by decide⟩

end Booklet
